import Mathlib

/-!
Verification of the short-time spectral analysis pipeline (`ISpectrumSender`,
iPlug2).  The C++ source is shallowly embedded below: floating point values
are modelled as real numbers, the fixed-capacity `std::array`s as total
functions out of `ℕ` (the code never reads outside the valid index range),
and the `std::vector` of overlap frames as a `List`.  The external FFT
routines `WDL_fft` / `WDL_fft_permute` live in `fft.h`, outside the sources
at hand, so the pipeline is parametric in the transform and its permutation;
where a concrete transform is required it is modelled from the spec
(forward DFT, bit-reversal permutation).
-/

namespace SpectrumSender

/-- Window families of `ISpectrumSender::EWindowType`. -/
inductive EWindowType
  | Hann
  | BlackmanHarris
  | Hamming
  | Flattop
  | Rectangular
deriving DecidableEq, Repr

/-- Output encodings of `ISpectrumSender::EOutputType` (the spec's
"Magnitude" mode is the source's `MagPhase`). -/
inductive EOutputType
  | Complex
  | MagPhase
deriving DecidableEq, Repr

/-- Embedding of `is_powerof2`: `v && ((v & (v - 1)) == 0)` on a
non-negative `int`. -/
def is_powerof2 (v : ℕ) : Bool :=
  (v != 0) && ((v &&& (v - 1)) == 0)

/-- The constructor's precondition (`assert(is_powerof2(fftSize))`,
`assert(fftSize > 0)`, `assert(fftSize <= MAX_FFT_SIZE)`). -/
def constructorAssertsPass (MAXFFT fftSize : ℕ) : Prop :=
  is_powerof2 fftSize = true ∧ 0 < fftSize ∧ fftSize ≤ MAXFFT

/-- The spec's notion of a valid transform size: a power of two,
positive, and at most the compile-time maximum. -/
def SpecValidSize (MAXFFT N : ℕ) : Prop :=
  (∃ k, N = 2 ^ k) ∧ 0 < N ∧ N ≤ MAXFFT

/-- Embedding of `CalculateWindow`: the coefficient table after the switch
over the window type, as a function of the previous table contents `prev`
(the loops write indices `[0, fftSize)`; the `Rectangular` case fills the
whole `MAX_FFT_SIZE`-sized array via `std::fill`).  `M` is
`static_cast<float>(fftSize - 1)`. -/
noncomputable def calculateWindow (MAXFFT : ℕ) (w : EWindowType) (N : ℕ)
    (prev : ℕ → ℝ) : ℕ → ℝ :=
  let M : ℝ := ((N - 1 : ℕ) : ℝ)
  fun i =>
    match w with
    | .Hann =>
        if i < N then 0.5 * (1.0 - Real.cos (Real.pi * 2.0 * i / M)) else prev i
    | .BlackmanHarris =>
        if i < N then
          0.35875 - (0.48829 * Real.cos (2.0 * Real.pi * i / M)) +
            (0.14128 * Real.cos (4.0 * Real.pi * i / M)) -
            (0.01168 * Real.cos (6.0 * Real.pi * i / M))
        else prev i
    | .Hamming =>
        if i < N then 0.54 - 0.46 * Real.cos (2.0 * Real.pi * i / M) else prev i
    | .Flattop =>
        if i < N then
          0.21557895 - 0.41663158 * Real.cos (2.0 * Real.pi * i / M) +
            0.277263158 * Real.cos (4.0 * Real.pi * i / M) -
            0.083578947 * Real.cos (6.0 * Real.pi * i / M) +
            0.006947368 * Real.cos (8.0 * Real.pi * i / M)
        else prev i
    | .Rectangular =>
        if i < MAXFFT then 1.0 else prev i

/-- The spec's window formulas (§4.1), written with `M = size − 1`. -/
noncomputable def specWindowCoeff (w : EWindowType) (N i : ℕ) : ℝ :=
  let M : ℝ := (N : ℝ) - 1
  match w with
  | .Hann => 0.5 * (1 - Real.cos (2 * Real.pi * i / M))
  | .BlackmanHarris =>
      0.35875 - 0.48829 * Real.cos (2 * Real.pi * i / M) +
        0.14128 * Real.cos (4 * Real.pi * i / M) -
        0.01168 * Real.cos (6 * Real.pi * i / M)
  | .Hamming => 0.54 - 0.46 * Real.cos (2 * Real.pi * i / M)
  | .Flattop =>
      0.21557895 - 0.41663158 * Real.cos (2 * Real.pi * i / M) +
        0.277263158 * Real.cos (4 * Real.pi * i / M) -
        0.083578947 * Real.cos (6 * Real.pi * i / M) +
        0.006947368 * Real.cos (8 * Real.pi * i / M)
  | .Rectangular => 1

/-- Embedding of `CalculateScalingFactors`: a running sum of the
Hann-shaped curve over `[0, fftSize)`, then `scaling * scaling`. -/
noncomputable def calculateScalingFactor (N : ℕ) : ℝ :=
  let M : ℝ := ((N - 1 : ℕ) : ℝ)
  let scaling : ℝ := ∑ i in Finset.range N, 0.5 * (1.0 - Real.cos (2.0 * Real.pi * i / M))
  scaling * scaling

/-- One overlap slot (`struct STFTFrame`): a write cursor and, per
channel, an array of complex bins (pairs of real and imaginary part). -/
structure STFTFrame where
  pos : ℕ
  bins : ℕ → ℕ → ℝ × ℝ

/-- A value-initialized frame (all bins zero, cursor zero); also the
out-of-range default for list reads, which the code never performs. -/
def zeroFrame : STFTFrame :=
  { pos := 0, bins := fun _ _ => (0, 0) }

/-- The sender's state: the base class buffer size (`GetBufferSize()` is
the configured fft size), the overlap count, the configured window and
output types, the window table, the overlap frames, the per-channel
output buffer `mSTFTOutput` and the scaling factor. -/
structure SenderState where
  bufferSize : ℕ
  overlap : ℕ
  windowType : EWindowType
  outputType : EOutputType
  window : ℕ → ℝ
  frames : List STFTFrame
  output : ℕ → ℕ → ℝ
  scalingFactor : ℝ

/-- Embedding of `SetFFTSize`: resize the frame vector to `mOverlap`
slots, zero every frame's bins and cursor, zero the output buffer. -/
def setFFTSize (s : SenderState) : SenderState :=
  { s with
    frames := List.replicate s.overlap zeroFrame
    output := fun _ _ => 0 }

/-- Embedding of `SetFFTSizeAndOverlap`: store the overlap, set the base
class buffer size, reset the frames, recompute the window table (for the
currently selected type) and the scaling factor. -/
noncomputable def setFFTSizeAndOverlap (MAXFFT : ℕ) (s : SenderState)
    (fftSize overlap : ℕ) : SenderState :=
  let s1 := { s with overlap := overlap, bufferSize := fftSize }
  let s2 := setFFTSize s1
  let s3 := { s2 with window := calculateWindow MAXFFT s2.windowType fftSize s2.window }
  { s3 with scalingFactor := calculateScalingFactor fftSize }

/-- Embedding of `SetWindowType`: store the type and recompute the
window table. -/
noncomputable def setWindowType (MAXFFT : ℕ) (s : SenderState)
    (w : EWindowType) : SenderState :=
  { s with
    windowType := w
    window := calculateWindow MAXFFT w s.bufferSize s.window }

/-- Embedding of `SetOutputType`. -/
def setOutputType (s : SenderState) (ot : EOutputType) : SenderState :=
  { s with outputType := ot }

/-- Embedding of the constructor: member initializers (`mWindowType`,
`mOutputType`, the base class buffer size; `mOverlap` defaults to `2`,
`mScalingFactor` to `0`, the window table and frame vector start empty)
followed by `SetFFTSizeAndOverlap(fftSize, overlap)`. -/
noncomputable def mkSpectrumSender (MAXFFT : ℕ) (fftSize overlap : ℕ)
    (w : EWindowType) (ot : EOutputType) : SenderState :=
  setFFTSizeAndOverlap MAXFFT
    { bufferSize := fftSize
      overlap := 2
      windowType := w
      outputType := ot
      window := fun _ => 0
      frames := []
      output := fun _ _ => 0
      scalingFactor := 0 } fftSize overlap

/-- Embedding of the overload `Permute(int ch, STFTFrame& frame)`: run the
in-place forward transform of length `fftSize` on the frame's bins for
channel `ch`, then write the encoded result into the output row for that
channel.  The transform `fft` and the permutation `perm` stand for
`WDL_fft` and `WDL_fft_permute` of `fft.h`.  Returns the updated frame
and the updated output buffer. -/
noncomputable def PermuteFrame (fft : ℕ → (ℕ → ℝ × ℝ) → ℕ → ℝ × ℝ)
    (perm : ℕ → ℕ → ℕ) (fftSize : ℕ) (ot : EOutputType) (scaling : ℝ)
    (ch : ℕ) (frame : STFTFrame) (out : ℕ → ℕ → ℝ) :
    STFTFrame × (ℕ → ℕ → ℝ) :=
  let newBins : ℕ → ℕ → ℝ × ℝ :=
    fun c i => if c = ch then fft fftSize (frame.bins ch) i else frame.bins c i
  let frame1 : STFTFrame := { frame with bins := newBins }
  let out1 : ℕ → ℕ → ℝ :=
    if ot = .Complex then
      let nBins := fftSize / 2
      fun c i =>
        if c = ch then
          if i < nBins then (newBins ch (perm fftSize i)).1
          else if i < nBins + nBins then (newBins ch (perm fftSize (i - nBins))).2
          else out c i
        else out c i
    else
      fun c i =>
        if c = ch then
          if i < fftSize then
            let re := (newBins ch (perm fftSize i)).1
            let im := (newBins ch (perm fftSize i)).2
            Real.sqrt (2.0 * (re * re + im * im) / scaling)
          else out c i
        else out c i
  (frame1, out1)

/-- Embedding of the overload `Permute(int ch, int frameIdx)`: the same
transform-and-format step, but reading the frame out of `mSTFTFrames` at
`frameIdx` and writing the transformed bins back into the vector. -/
noncomputable def PermuteIdx (fft : ℕ → (ℕ → ℝ × ℝ) → ℕ → ℝ × ℝ)
    (perm : ℕ → ℕ → ℕ) (s : SenderState) (ch frameIdx : ℕ) : SenderState :=
  let fftSize := s.bufferSize
  let frame := s.frames.getD frameIdx zeroFrame
  let newBins : ℕ → ℕ → ℝ × ℝ :=
    fun c i => if c = ch then fft fftSize (frame.bins ch) i else frame.bins c i
  let frame1 : STFTFrame := { frame with bins := newBins }
  let out1 : ℕ → ℕ → ℝ :=
    if s.outputType = .Complex then
      let nBins := fftSize / 2
      fun c i =>
        if c = ch then
          if i < nBins then (newBins ch (perm fftSize i)).1
          else if i < nBins + nBins then (newBins ch (perm fftSize (i - nBins))).2
          else s.output c i
        else s.output c i
    else
      fun c i =>
        if c = ch then
          if i < fftSize then
            let re := (newBins ch (perm fftSize i)).1
            let im := (newBins ch (perm fftSize i)).2
            Real.sqrt (2.0 * (re * re + im * im) / s.scalingFactor)
          else s.output c i
        else s.output c i
  { s with frames := s.frames.set frameIdx frame1, output := out1 }

/-- The per-channel completion loop inside `PrepareDataForUI`: for each
channel, `Permute(ch, stftFrame)` followed by the `memcpy` of the output
row into the data packet (the first `fftSize` floats).  The counter runs
through channels `ch, ch+1, ...` with `k` channels left to process. -/
noncomputable def completeChannelsAux (fft : ℕ → (ℕ → ℝ × ℝ) → ℕ → ℝ × ℝ)
    (perm : ℕ → ℕ → ℕ) (fftSize : ℕ) (ot : EOutputType) (scaling : ℝ) :
    ℕ → ℕ → STFTFrame → (ℕ → ℕ → ℝ) → (ℕ → ℕ → ℝ) →
    STFTFrame × (ℕ → ℕ → ℝ) × (ℕ → ℕ → ℝ)
  | _, 0, frame, out, vals => (frame, out, vals)
  | ch, Nat.succ k, frame, out, vals =>
      let r := PermuteFrame fft perm fftSize ot scaling ch frame out
      let vals1 : ℕ → ℕ → ℝ :=
        fun c i => if c = ch ∧ i < fftSize then r.2 ch i else vals c i
      completeChannelsAux fft perm fftSize ot scaling (ch + 1) k r.1 r.2 vals1

/-- The completion loop over all `MAXNC` channels. -/
noncomputable def completeChannels (NC : ℕ)
    (fft : ℕ → (ℕ → ℝ × ℝ) → ℕ → ℝ × ℝ) (perm : ℕ → ℕ → ℕ) (fftSize : ℕ)
    (ot : EOutputType) (scaling : ℝ) (frame : STFTFrame)
    (out vals : ℕ → ℕ → ℝ) : STFTFrame × (ℕ → ℕ → ℝ) × (ℕ → ℕ → ℝ) :=
  completeChannelsAux fft perm fftSize ot scaling 0 NC frame out vals

/-- The body of the frame loop in `PrepareDataForUI` for one
`(sampleIdx, frameIdx)` pair: write the windowed sample into every
channel's bin at the frame's cursor, advance the cursor, and on
completion reset the cursor and run the per-channel transform and copy.
The pair carries the sender state and the data packet `vals`. -/
noncomputable def processFrame (NC : ℕ)
    (fft : ℕ → (ℕ → ℝ × ℝ) → ℕ → ℝ × ℝ) (perm : ℕ → ℕ → ℕ) (fftSize : ℕ)
    (sampleIdx frameIdx : ℕ) (sv : SenderState × (ℕ → ℕ → ℝ)) :
    SenderState × (ℕ → ℕ → ℝ) :=
  let s := sv.1
  let vals := sv.2
  let frame := s.frames.getD frameIdx zeroFrame
  let p := frame.pos
  let frame1 : STFTFrame :=
    { pos := p + 1
      bins := fun c i =>
        if c < NC ∧ i = p then (vals c sampleIdx * s.window p, 0)
        else frame.bins c i }
  if fftSize ≤ frame1.pos then
    let frame2 : STFTFrame := { frame1 with pos := 0 }
    let r := completeChannels NC fft perm fftSize s.outputType s.scalingFactor
      frame2 s.output vals
    ({ s with frames := s.frames.set frameIdx r.1, output := r.2.1 }, r.2.2)
  else
    ({ s with frames := s.frames.set frameIdx frame1 }, vals)

/-- The inner loop of `PrepareDataForUI` over the overlap frames, with
`k` frames left starting at `frameIdx`. -/
noncomputable def frameLoop (NC : ℕ)
    (fft : ℕ → (ℕ → ℝ × ℝ) → ℕ → ℝ × ℝ) (perm : ℕ → ℕ → ℕ) (fftSize : ℕ)
    (sampleIdx : ℕ) :
    ℕ → ℕ → SenderState × (ℕ → ℕ → ℝ) → SenderState × (ℕ → ℕ → ℝ)
  | _, 0, sv => sv
  | frameIdx, Nat.succ k, sv =>
      frameLoop NC fft perm fftSize sampleIdx (frameIdx + 1) k
        (processFrame NC fft perm fftSize sampleIdx frameIdx sv)

/-- The outer loop of `PrepareDataForUI` over the samples of the block,
with `k` samples left starting at `sampleIdx`.  Each iteration runs the
frame loop over all `mOverlap` frames. -/
noncomputable def sampleLoop (NC : ℕ)
    (fft : ℕ → (ℕ → ℝ × ℝ) → ℕ → ℝ × ℝ) (perm : ℕ → ℕ → ℕ) (fftSize : ℕ) :
    ℕ → ℕ → SenderState × (ℕ → ℕ → ℝ) → SenderState × (ℕ → ℕ → ℝ)
  | _, 0, sv => sv
  | sampleIdx, Nat.succ k, sv =>
      sampleLoop NC fft perm fftSize (sampleIdx + 1) k
        (frameLoop NC fft perm fftSize sampleIdx 0 sv.1.overlap sv)

/-- Embedding of `PrepareDataForUI`: `fftSize` is read once from the base
class; the sample loop runs over the whole block (whose length is the
buffer size), and the data packet `vals` is both the input read and the
destination of the completed-frame `memcpy`. -/
noncomputable def prepareDataForUI (NC : ℕ)
    (fft : ℕ → (ℕ → ℝ × ℝ) → ℕ → ℝ × ℝ) (perm : ℕ → ℕ → ℕ)
    (s : SenderState) (vals : ℕ → ℕ → ℝ) : SenderState × (ℕ → ℕ → ℝ) :=
  sampleLoop NC fft perm s.bufferSize 0 s.bufferSize (s, vals)

/-- Modelled from the spec: `WDL_fft` (declared in `fft.h`, not among the
sources at hand) — "applies an in-place forward transform of length N to
the frame's bins", i.e. the forward discrete Fourier transform
`X_k = ∑_j x_j · e^(−2πi·jk/N)` written out in real and imaginary
parts. -/
noncomputable def specDFT (n : ℕ) (b : ℕ → ℝ × ℝ) : ℕ → ℝ × ℝ :=
  fun k =>
    (∑ j in Finset.range n,
        ((b j).1 * Real.cos (2 * Real.pi * j * k / n) +
          (b j).2 * Real.sin (2 * Real.pi * j * k / n)),
      ∑ j in Finset.range n,
        ((b j).2 * Real.cos (2 * Real.pi * j * k / n) -
          (b j).1 * Real.sin (2 * Real.pi * j * k / n)))

/-- Reverse the low `k` binary digits of `x`, accumulator style. -/
def bitRevAux : ℕ → ℕ → ℕ → ℕ
  | 0, _, acc => acc
  | Nat.succ k, x, acc => bitRevAux k (x / 2) (2 * acc + x % 2)

/-- Fuelled base-two logarithm (floor), structurally recursive. -/
def log2floorAux : ℕ → ℕ → ℕ
  | 0, _ => 0
  | Nat.succ fuel, n => if 2 ≤ n then log2floorAux fuel (n / 2) + 1 else 0

/-- Floor of the base-two logarithm. -/
def log2floor (n : ℕ) : ℕ := log2floorAux n n

/-- Modelled from the spec: `WDL_fft_permute` (declared in `fft.h`, not
among the sources at hand) — "a bit-reversal (or transform-specific)
permutation table for length N": reverse the `log₂ N` binary digits of
the bin index. -/
def specPermute (n i : ℕ) : ℕ := bitRevAux (log2floor n) i 0

/-- The cursor update a frame undergoes for one incoming sample:
increment, wrapping to zero on reaching the transform size. -/
def nextPos (n p : ℕ) : ℕ := if n ≤ p + 1 then 0 else p + 1

theorem getD_set_self {α : Type} (l : List α) (i : ℕ) (a d : α)
    (h : i < l.length) : (l.set i a).getD i d = a := by
  simp [List.getD_eq_getElem?_getD, List.getElem?_set_self h]

theorem getD_set_ne {α : Type} (l : List α) {i j : ℕ} (a d : α)
    (h : i ≠ j) : (l.set i a).getD j d = l.getD j d := by
  simp [List.getD_eq_getElem?_getD, List.getElem?_set_ne h]

theorem completeChannelsAux_pos (fft : ℕ → (ℕ → ℝ × ℝ) → ℕ → ℝ × ℝ)
    (perm : ℕ → ℕ → ℕ) (n : ℕ) (ot : EOutputType) (sc : ℝ) :
    ∀ (k ch : ℕ) (frame : STFTFrame) (out vals : ℕ → ℕ → ℝ),
      (completeChannelsAux fft perm n ot sc ch k frame out vals).1.pos = frame.pos := by
  intro k
  induction k with
  | zero => intro ch frame out vals; rfl
  | succ k ih =>
    intro ch frame out vals
    rw [completeChannelsAux, ih]
    rfl

theorem processFrame_length (NC : ℕ) (fft : ℕ → (ℕ → ℝ × ℝ) → ℕ → ℝ × ℝ)
    (perm : ℕ → ℕ → ℕ) (n si fi : ℕ) (sv : SenderState × (ℕ → ℕ → ℝ)) :
    (processFrame NC fft perm n si fi sv).1.frames.length = sv.1.frames.length := by
  unfold processFrame
  dsimp only
  split <;> simp

theorem processFrame_overlap (NC : ℕ) (fft : ℕ → (ℕ → ℝ × ℝ) → ℕ → ℝ × ℝ)
    (perm : ℕ → ℕ → ℕ) (n si fi : ℕ) (sv : SenderState × (ℕ → ℕ → ℝ)) :
    (processFrame NC fft perm n si fi sv).1.overlap = sv.1.overlap := by
  unfold processFrame
  dsimp only
  split <;> rfl

theorem processFrame_pos_other (NC : ℕ) (fft : ℕ → (ℕ → ℝ × ℝ) → ℕ → ℝ × ℝ)
    (perm : ℕ → ℕ → ℕ) (n si fi : ℕ) (sv : SenderState × (ℕ → ℕ → ℝ))
    {j : ℕ} (hj : fi ≠ j) :
    (processFrame NC fft perm n si fi sv).1.frames.getD j zeroFrame =
      sv.1.frames.getD j zeroFrame := by
  unfold processFrame
  dsimp only
  split <;> exact getD_set_ne _ _ _ hj

theorem processFrame_pos_self (NC : ℕ) (fft : ℕ → (ℕ → ℝ × ℝ) → ℕ → ℝ × ℝ)
    (perm : ℕ → ℕ → ℕ) (n si fi : ℕ) (sv : SenderState × (ℕ → ℕ → ℝ))
    (h : fi < sv.1.frames.length) :
    ((processFrame NC fft perm n si fi sv).1.frames.getD fi zeroFrame).pos =
      nextPos n ((sv.1.frames.getD fi zeroFrame).pos) := by
  unfold processFrame
  dsimp only
  split
  case isTrue h1 =>
    rw [getD_set_self _ _ _ _ h]
    unfold completeChannels
    rw [completeChannelsAux_pos]
    unfold nextPos
    rw [if_pos h1]
  case isFalse h1 =>
    rw [getD_set_self _ _ _ _ h]
    unfold nextPos
    rw [if_neg h1]

theorem frameLoop_length (NC : ℕ) (fft : ℕ → (ℕ → ℝ × ℝ) → ℕ → ℝ × ℝ)
    (perm : ℕ → ℕ → ℕ) (n si : ℕ) :
    ∀ (k start : ℕ) (sv : SenderState × (ℕ → ℕ → ℝ)),
      (frameLoop NC fft perm n si start k sv).1.frames.length = sv.1.frames.length := by
  intro k
  induction k with
  | zero => intro start sv; rfl
  | succ k ih =>
    intro start sv
    rw [frameLoop, ih, processFrame_length]

theorem frameLoop_overlap (NC : ℕ) (fft : ℕ → (ℕ → ℝ × ℝ) → ℕ → ℝ × ℝ)
    (perm : ℕ → ℕ → ℕ) (n si : ℕ) :
    ∀ (k start : ℕ) (sv : SenderState × (ℕ → ℕ → ℝ)),
      (frameLoop NC fft perm n si start k sv).1.overlap = sv.1.overlap := by
  intro k
  induction k with
  | zero => intro start sv; rfl
  | succ k ih =>
    intro start sv
    rw [frameLoop, ih, processFrame_overlap]

theorem frameLoop_pos (NC : ℕ) (fft : ℕ → (ℕ → ℝ × ℝ) → ℕ → ℝ × ℝ)
    (perm : ℕ → ℕ → ℕ) (n si p : ℕ) :
    ∀ (k start : ℕ) (sv : SenderState × (ℕ → ℕ → ℝ)),
      sv.1.frames.length ≤ start + k →
      (∀ j, j < sv.1.frames.length →
        (sv.1.frames.getD j zeroFrame).pos = if j < start then nextPos n p else p) →
      ∀ j, j < (frameLoop NC fft perm n si start k sv).1.frames.length →
        ((frameLoop NC fft perm n si start k sv).1.frames.getD j zeroFrame).pos =
          nextPos n p := by
  intro k
  induction k with
  | zero =>
    intro start sv hlen h j hj
    rw [frameLoop] at hj ⊢
    have hjs : j < start := lt_of_lt_of_le hj (by omega)
    rw [h j hj]
    simp [hjs]
  | succ k ih =>
    intro start sv hlen h
    rw [frameLoop]
    apply ih (start + 1) (processFrame NC fft perm n si start sv)
    · rw [processFrame_length]; omega
    · intro j hj
      rw [processFrame_length] at hj
      rcases eq_or_ne start j with rfl | hne
      · rw [processFrame_pos_self _ _ _ _ _ _ _ hj, h start hj]
        simp
      · rw [processFrame_pos_other _ _ _ _ _ _ _ hne, h j hj]
        by_cases hjs : j < start
        · simp [hjs, Nat.lt_succ_of_lt hjs]
        · have hns : ¬ j < start + 1 := by omega
          simp [hjs, hns]

theorem sampleLoop_lockstep (NC : ℕ) (fft : ℕ → (ℕ → ℝ × ℝ) → ℕ → ℝ × ℝ)
    (perm : ℕ → ℕ → ℕ) (n : ℕ) (hn : 0 < n) :
    ∀ (k si : ℕ) (sv : SenderState × (ℕ → ℕ → ℝ)) (p : ℕ),
      sv.1.frames.length = sv.1.overlap →
      p < n →
      (∀ j, j < sv.1.frames.length → (sv.1.frames.getD j zeroFrame).pos = p) →
      ∃ q, q < n ∧
        ∀ j, j < (sampleLoop NC fft perm n si k sv).1.frames.length →
          ((sampleLoop NC fft perm n si k sv).1.frames.getD j zeroFrame).pos = q := by
  intro k
  induction k with
  | zero =>
    intro si sv p hlen hp h
    exact ⟨p, hp, h⟩
  | succ k ih =>
    intro si sv p hlen hp h
    rw [sampleLoop]
    apply ih (si + 1) _ (nextPos n p)
    · rw [frameLoop_length, frameLoop_overlap]; exact hlen
    · unfold nextPos; split <;> omega
    · apply frameLoop_pos NC fft perm n si p sv.1.overlap 0 sv (by omega)
      intro j hj
      simpa using h j hj

/-- C8: `SetWindowType` recomputes the window table only — for every
state and every window type the frames (cursors and bins), the output
buffer and the scaling factor are unchanged, while the window table is
recomputed for the new type. -/
theorem setWindowType_no_frame_reset (MAXFFT : ℕ) (s : SenderState)
    (w : EWindowType) :
    (setWindowType MAXFFT s w).frames = s.frames ∧
    (setWindowType MAXFFT s w).output = s.output ∧
    (setWindowType MAXFFT s w).scalingFactor = s.scalingFactor ∧
    (setWindowType MAXFFT s w).window =
      calculateWindow MAXFFT w s.bufferSize s.window :=
  ⟨rfl, rfl, rfl, rfl⟩

/-- C3: for every window type and every valid size, the coefficient the
code writes at each index `i < N` equals the spec's formula for that
type with `M = N − 1`. -/
theorem window_table_matches_spec (MAXFFT : ℕ) (w : EWindowType) (N i : ℕ)
    (prev : ℕ → ℝ) (hi : i < N) (hmax : N ≤ MAXFFT) :
    calculateWindow MAXFFT w N prev i = specWindowCoeff w N i := by
  have h1 : (1 : ℕ) ≤ N := by omega
  have hM : ((N - 1 : ℕ) : ℝ) = (N : ℝ) - 1 := by push_cast [h1]; ring
  have himax : i < MAXFFT := lt_of_lt_of_le hi hmax
  cases w <;>
    simp only [calculateWindow, specWindowCoeff, hM, if_pos hi, if_pos himax] <;>
    norm_num <;> ring_nf

/-- Witness for `window_table_matches_spec` at the Hann window, size 2,
index 0. -/
theorem window_table_matches_spec_witness :
    (0 : ℕ) < 2 ∧ (2 : ℕ) ≤ 4096 ∧
    calculateWindow 4096 .Hann 2 (fun _ => 0) 0 = specWindowCoeff .Hann 2 0 :=
  ⟨by norm_num, by norm_num,
    window_table_matches_spec 4096 .Hann 2 0 (fun _ => 0) (by norm_num) (by norm_num)⟩

/-- C5: in Magnitude (`MagPhase`) output mode, the formatted output for
a completed frame holds, at every `i < N`, the value
`sqrt(2·(re² + im²)/scalingFactor)` where `re`/`im` are the transformed
bin at the permuted index, and all these values are non-negative. -/
theorem magnitude_output_formula (fft : ℕ → (ℕ → ℝ × ℝ) → ℕ → ℝ × ℝ)
    (perm : ℕ → ℕ → ℕ) (n : ℕ) (scaling : ℝ) (ch : ℕ) (frame : STFTFrame)
    (out : ℕ → ℕ → ℝ) (i : ℕ) (hi : i < n) :
    (PermuteFrame fft perm n .MagPhase scaling ch frame out).2 ch i =
      Real.sqrt (2 * ((fft n (frame.bins ch) (perm n i)).1 ^ 2 +
        (fft n (frame.bins ch) (perm n i)).2 ^ 2) / scaling) ∧
    0 ≤ (PermuteFrame fft perm n .MagPhase scaling ch frame out).2 ch i := by
  have hne : ¬ (EOutputType.MagPhase = EOutputType.Complex) := by decide
  constructor
  · simp only [PermuteFrame]
    rw [if_neg hne]
    simp [hi]
    congr 1
    ring
  · simp only [PermuteFrame]
    rw [if_neg hne]
    simp [hi]

/-- Witness for `magnitude_output_formula` at size 2, index 0. -/
theorem magnitude_output_formula_witness :
    (0 : ℕ) < 2 ∧
    ((PermuteFrame (fun _ b => b) (fun _ i => i) 2 .MagPhase 1 0 zeroFrame
        (fun _ _ => 0)).2 0 0 =
      Real.sqrt (2 * (((fun _ (b : ℕ → ℝ × ℝ) => b) 2 (zeroFrame.bins 0)
          ((fun _ (i : ℕ) => i) 2 0)).1 ^ 2 +
        ((fun _ (b : ℕ → ℝ × ℝ) => b) 2 (zeroFrame.bins 0)
          ((fun _ (i : ℕ) => i) 2 0)).2 ^ 2) / 1) ∧
      0 ≤ (PermuteFrame (fun _ b => b) (fun _ i => i) 2 .MagPhase 1 0 zeroFrame
        (fun _ _ => 0)).2 0 0) :=
  ⟨by norm_num,
    magnitude_output_formula (fun _ b => b) (fun _ i => i) 2 1 0 zeroFrame
      (fun _ _ => 0) 0 (by norm_num)⟩

/-- C6: in Complex output mode, the formatted output for a completed
frame holds, at every `i < N/2`, the real part of the transformed bin at
the permuted index at output index `i` and its imaginary part at output
index `i + N/2`. -/
theorem complex_output_packs_halves (fft : ℕ → (ℕ → ℝ × ℝ) → ℕ → ℝ × ℝ)
    (perm : ℕ → ℕ → ℕ) (n : ℕ) (scaling : ℝ) (ch : ℕ) (frame : STFTFrame)
    (out : ℕ → ℕ → ℝ) (i : ℕ) (hi : i < n / 2) :
    (PermuteFrame fft perm n .Complex scaling ch frame out).2 ch i =
      (fft n (frame.bins ch) (perm n i)).1 ∧
    (PermuteFrame fft perm n .Complex scaling ch frame out).2 ch (i + n / 2) =
      (fft n (frame.bins ch) (perm n i)).2 := by
  have h1 : ¬ i + n / 2 < n / 2 := by omega
  have h2 : i + n / 2 < n / 2 + n / 2 := by omega
  have h3 : i + n / 2 - n / 2 = i := by omega
  constructor
  · simp only [PermuteFrame]
    norm_num [hi]
  · simp only [PermuteFrame]
    norm_num [h1, h2, h3]

/-- Witness for `complex_output_packs_halves` at size 2, index 0. -/
theorem complex_output_packs_halves_witness :
    (0 : ℕ) < 2 / 2 ∧
    ((PermuteFrame (fun _ b => b) (fun _ i => i) 2 .Complex 1 0 zeroFrame
        (fun _ _ => 0)).2 0 0 =
      ((fun _ (b : ℕ → ℝ × ℝ) => b) 2 (zeroFrame.bins 0)
        ((fun _ (i : ℕ) => i) 2 0)).1 ∧
    (PermuteFrame (fun _ b => b) (fun _ i => i) 2 .Complex 1 0 zeroFrame
        (fun _ _ => 0)).2 0 (0 + 2 / 2) =
      ((fun _ (b : ℕ → ℝ × ℝ) => b) 2 (zeroFrame.bins 0)
        ((fun _ (i : ℕ) => i) 2 0)).2) :=
  ⟨by norm_num,
    complex_output_packs_halves (fun _ b => b) (fun _ i => i) 2 1 0 zeroFrame
      (fun _ _ => 0) 0 (by norm_num)⟩

/-- C10: the two `Permute` overloads are equivalent — for a frame index
in range, `Permute(ch, frameIdx)` leaves exactly the state obtained by
running `Permute(ch, frame)` on the frame stored at that index and
writing the updated frame and output back. -/
theorem permute_overloads_equiv (fft : ℕ → (ℕ → ℝ × ℝ) → ℕ → ℝ × ℝ)
    (perm : ℕ → ℕ → ℕ) (s : SenderState) (ch frameIdx : ℕ)
    (h : frameIdx < s.frames.length) :
    PermuteIdx fft perm s ch frameIdx =
      { s with
        frames := s.frames.set frameIdx
          (PermuteFrame fft perm s.bufferSize s.outputType s.scalingFactor ch
            (s.frames.getD frameIdx zeroFrame) s.output).1
        output := (PermuteFrame fft perm s.bufferSize s.outputType
          s.scalingFactor ch (s.frames.getD frameIdx zeroFrame) s.output).2 } :=
  rfl

/-- Witness for `permute_overloads_equiv` on a one-frame state. -/
theorem permute_overloads_equiv_witness :
    0 < (SenderState.mk 2 1 .Hann .Complex (fun _ => 0) [zeroFrame]
      (fun _ _ => 0) 0).frames.length ∧
    PermuteIdx (fun _ b => b) (fun _ i => i)
      (SenderState.mk 2 1 .Hann .Complex (fun _ => 0) [zeroFrame]
        (fun _ _ => 0) 0) 0 0 =
      { SenderState.mk 2 1 .Hann .Complex (fun _ => 0) [zeroFrame]
          (fun _ _ => 0) 0 with
        frames := (SenderState.mk 2 1 .Hann .Complex (fun _ => 0) [zeroFrame]
          (fun _ _ => 0) 0).frames.set 0
          (PermuteFrame (fun _ b => b) (fun _ i => i) 2 .Complex 0 0
            ((SenderState.mk 2 1 .Hann .Complex (fun _ => 0) [zeroFrame]
              (fun _ _ => 0) 0).frames.getD 0 zeroFrame) (fun _ _ => 0)).1
        output := (PermuteFrame (fun _ b => b) (fun _ i => i) 2 .Complex 0 0
          ((SenderState.mk 2 1 .Hann .Complex (fun _ => 0) [zeroFrame]
            (fun _ _ => 0) 0).frames.getD 0 zeroFrame) (fun _ _ => 0)).2 } :=
  ⟨by norm_num,
    permute_overloads_equiv (fun _ b => b) (fun _ i => i)
      (SenderState.mk 2 1 .Hann .Complex (fun _ => 0) [zeroFrame]
        (fun _ _ => 0) 0) 0 0 (by norm_num)⟩

/-- C2: after configuring any state with a valid size `N`, the scaling
factor is the square of the sum of the Hann-window coefficients of size
`N`, and it does not depend on the selected window type. -/
theorem scaling_factor_hann_sum_squared (MAXFFT : ℕ) (s : SenderState)
    (N K : ℕ) (w : EWindowType) (h : SpecValidSize MAXFFT N) :
    (setFFTSizeAndOverlap MAXFFT s N K).scalingFactor =
      (∑ i in Finset.range N, specWindowCoeff .Hann N i) ^ 2 ∧
    (setFFTSizeAndOverlap MAXFFT { s with windowType := w } N K).scalingFactor =
      (setFFTSizeAndOverlap MAXFFT s N K).scalingFactor := by
  obtain ⟨-, hpos, -⟩ := h
  have h1 : (1 : ℕ) ≤ N := hpos
  have hM : ((N - 1 : ℕ) : ℝ) = (N : ℝ) - 1 := by push_cast [h1]; ring
  constructor
  · show calculateScalingFactor N = _
    unfold calculateScalingFactor
    dsimp only
    have hsum : ∀ i ∈ Finset.range N,
        0.5 * (1.0 - Real.cos (2.0 * Real.pi * (i : ℝ) / ((N - 1 : ℕ) : ℝ))) =
          specWindowCoeff .Hann N i := by
      intro i _
      simp only [specWindowCoeff, hM]
      norm_num
    rw [Finset.sum_congr rfl hsum, sq]
  · rfl

/-- Witness for `scaling_factor_hann_sum_squared` at size 4. -/
theorem scaling_factor_hann_sum_squared_witness :
    SpecValidSize 4096 4 ∧
    ((setFFTSizeAndOverlap 4096
        (SenderState.mk 4 2 .Flattop .Complex (fun _ => 0) [] (fun _ _ => 0) 0)
        4 2).scalingFactor =
      (∑ i in Finset.range 4, specWindowCoeff .Hann 4 i) ^ 2 ∧
    (setFFTSizeAndOverlap 4096
        { SenderState.mk 4 2 .Flattop .Complex (fun _ => 0) [] (fun _ _ => 0) 0
          with windowType := .Rectangular } 4 2).scalingFactor =
      (setFFTSizeAndOverlap 4096
        (SenderState.mk 4 2 .Flattop .Complex (fun _ => 0) [] (fun _ _ => 0) 0)
        4 2).scalingFactor) :=
  ⟨⟨⟨2, by norm_num⟩, by norm_num, by norm_num⟩,
    scaling_factor_hann_sum_squared 4096
      (SenderState.mk 4 2 .Flattop .Complex (fun _ => 0) [] (fun _ _ => 0) 0)
      4 2 .Rectangular ⟨⟨2, by norm_num⟩, by norm_num, by norm_num⟩⟩

/-- C7 (amended): reconfiguring the size or overlap via
`SetFFTSizeAndOverlap` resets every frame's cursor to 0 and zeroes the
output buffer for all channels; changing only the window type
(`SetWindowType`) or the output type (`SetOutputType`) leaves the frames
and the output buffer untouched. -/
theorem reconfigure_size_overlap_resets (MAXFFT : ℕ) (s : SenderState)
    (N K : ℕ) (w : EWindowType) (ot : EOutputType) :
    ((∀ f ∈ (setFFTSizeAndOverlap MAXFFT s N K).frames, f.pos = 0) ∧
      (∀ ch i, (setFFTSizeAndOverlap MAXFFT s N K).output ch i = 0)) ∧
    ((setWindowType MAXFFT s w).frames = s.frames ∧
      (setWindowType MAXFFT s w).output = s.output) ∧
    ((setOutputType s ot).frames = s.frames ∧
      (setOutputType s ot).output = s.output) := by
  refine ⟨⟨?_, ?_⟩, ⟨rfl, rfl⟩, ⟨rfl, rfl⟩⟩
  · intro f hf
    have hf' : f ∈ List.replicate K zeroFrame := hf
    rw [List.eq_of_mem_replicate hf']
    rfl
  · intro ch i
    rfl

/-- Counterexample to C7 as stated: changing the window type alone does
not reset the frame cursors (nor the output); here a frame with cursor 1
keeps cursor 1 across `SetWindowType`. -/
theorem reconfigure_window_type_no_reset_counterexample :
    ((setWindowType 4096
        (SenderState.mk 4 1 .Hann .Complex (fun _ => 0)
          [STFTFrame.mk 1 (fun _ _ => (0, 0))] (fun _ _ => 0) 0)
        .Hamming).frames.getD 0 zeroFrame).pos ≠ 0 := by
  simp [setWindowType]

/-- Bounds for the Blackman-Harris four-term cosine sum, written with
the code's coefficients, for any angle. -/
theorem bh_formula_bounds (θ : ℝ) :
    0 ≤ 0.35875 - (0.48829 * Real.cos θ) + (0.14128 * Real.cos (2 * θ)) -
        (0.01168 * Real.cos (3 * θ)) ∧
    0.35875 - (0.48829 * Real.cos θ) + (0.14128 * Real.cos (2 * θ)) -
        (0.01168 * Real.cos (3 * θ)) ≤ 1 := by
  rw [Real.cos_two_mul, Real.cos_three_mul]
  have h1 : -1 ≤ Real.cos θ := Real.neg_one_le_cos θ
  have h2 : Real.cos θ ≤ 1 := Real.cos_le_one θ
  set c := Real.cos θ with hc
  constructor
  · have hr : (0 : ℝ) ≤ 0.04672 * c ^ 2 - 0.23584 * c + 0.21741 := by
      nlinarith [sq_nonneg (c - 1)]
    nlinarith [mul_nonneg (by linarith : (0 : ℝ) ≤ 1 - c) hr]
  · have hq : (0 : ℝ) ≤ 0.04672 * c ^ 2 - 0.32928 * c + 0.78253 := by
      nlinarith [sq_nonneg c]
    nlinarith [mul_nonneg (by linarith : (0 : ℝ) ≤ 1 + c) hq]

/-- C4 (amended): for the Hann, Blackman-Harris, Hamming and Rectangular
window types every table coefficient at indices `[0, N)` lies in
`[0, 1]`, and for Rectangular it is exactly 1; the Flattop window is
excluded (its coefficients can be negative). -/
theorem window_coeffs_in_unit_interval (MAXFFT : ℕ) (w : EWindowType)
    (N i : ℕ) (prev : ℕ → ℝ) (hi : i < N) (hmax : N ≤ MAXFFT) :
    (w ≠ .Flattop → 0 ≤ calculateWindow MAXFFT w N prev i ∧
      calculateWindow MAXFFT w N prev i ≤ 1) ∧
    (w = .Rectangular → calculateWindow MAXFFT w N prev i = 1) := by
  have himax : i < MAXFFT := lt_of_lt_of_le hi hmax
  cases w
  case Hann =>
    refine ⟨fun _ => ?_, nofun⟩
    simp only [calculateWindow, if_pos hi]
    have h1 := Real.neg_one_le_cos (Real.pi * 2.0 * (i : ℝ) / ((N - 1 : ℕ) : ℝ))
    have h2 := Real.cos_le_one (Real.pi * 2.0 * (i : ℝ) / ((N - 1 : ℕ) : ℝ))
    constructor <;> nlinarith
  case BlackmanHarris =>
    refine ⟨fun _ => ?_, nofun⟩
    simp only [calculateWindow, if_pos hi]
    have e2 : (4.0 : ℝ) * Real.pi * (i : ℝ) / ((N - 1 : ℕ) : ℝ) =
        2 * (2.0 * Real.pi * (i : ℝ) / ((N - 1 : ℕ) : ℝ)) := by ring
    have e3 : (6.0 : ℝ) * Real.pi * (i : ℝ) / ((N - 1 : ℕ) : ℝ) =
        3 * (2.0 * Real.pi * (i : ℝ) / ((N - 1 : ℕ) : ℝ)) := by ring
    rw [e2, e3]
    exact bh_formula_bounds _
  case Hamming =>
    refine ⟨fun _ => ?_, nofun⟩
    simp only [calculateWindow, if_pos hi]
    have h1 := Real.neg_one_le_cos (2.0 * Real.pi * (i : ℝ) / ((N - 1 : ℕ) : ℝ))
    have h2 := Real.cos_le_one (2.0 * Real.pi * (i : ℝ) / ((N - 1 : ℕ) : ℝ))
    constructor <;> nlinarith
  case Flattop =>
    exact ⟨fun h => absurd rfl h, nofun⟩
  case Rectangular =>
    have hval : calculateWindow MAXFFT .Rectangular N prev i = 1 := by
      simp only [calculateWindow, if_pos himax]
      norm_num
    exact ⟨fun _ => by rw [hval]; norm_num, fun _ => hval⟩

/-- Witness for `window_coeffs_in_unit_interval` at the Hann window,
size 2, index 0. -/
theorem window_coeffs_in_unit_interval_witness :
    (0 : ℕ) < 2 ∧ (2 : ℕ) ≤ 4096 ∧
    ((EWindowType.Hann ≠ .Flattop →
      0 ≤ calculateWindow 4096 .Hann 2 (fun _ => 0) 0 ∧
        calculateWindow 4096 .Hann 2 (fun _ => 0) 0 ≤ 1) ∧
    (EWindowType.Hann = .Rectangular →
      calculateWindow 4096 .Hann 2 (fun _ => 0) 0 = 1)) :=
  ⟨by norm_num, by norm_num,
    window_coeffs_in_unit_interval 4096 .Hann 2 0 (fun _ => 0)
      (by norm_num) (by norm_num)⟩

/-- Counterexample to C4 as stated: the Flattop window coefficient at
index 0 is negative (its five terms sum to −0.000421051 there), so not
every coefficient lies in `[0, 1]`. -/
theorem flattop_coeff_negative_counterexample :
    calculateWindow 4096 .Flattop 4 (fun _ => 0) 0 < 0 := by
  unfold calculateWindow
  norm_num [Real.cos_zero]

/-- The bit trick of `is_powerof2` recognises exactly the powers of
two. -/
theorem is_powerof2_iff (v : ℕ) : is_powerof2 v = true ↔ ∃ k, v = 2 ^ k := by
  unfold is_powerof2
  rw [Bool.and_eq_true, bne_iff_ne, beq_iff_eq]
  constructor
  · rintro ⟨hne, hland⟩
    refine ⟨Nat.log 2 v, ?_⟩
    by_contra hneq
    have hlo : 2 ^ Nat.log 2 v ≤ v := Nat.pow_log_le_self 2 hne
    have hhi : v < 2 ^ (Nat.log 2 v + 1) := Nat.lt_pow_succ_log_self (by norm_num) v
    have hlt : 2 ^ Nat.log 2 v < v := lt_of_le_of_ne hlo (fun h => hneq h.symm)
    set j := Nat.log 2 v with hj
    have hub : v < (1 + 1) * 2 ^ j := by
      have := hhi
      rw [pow_succ] at this
      omega
    have hbv : v.testBit j = true := by
      rw [Nat.testBit_to_div_mod]
      have hdiv : v / 2 ^ j = 1 := Nat.div_eq_of_lt_le (by simpa using hlo) hub
      simp [hdiv]
    have hbv1 : (v - 1).testBit j = true := by
      rw [Nat.testBit_to_div_mod]
      have hlo1 : 1 * 2 ^ j ≤ v - 1 := by
        have := hlt
        omega
      have hub1 : v - 1 < (1 + 1) * 2 ^ j := by omega
      have hdiv : (v - 1) / 2 ^ j = 1 := Nat.div_eq_of_lt_le hlo1 hub1
      simp [hdiv]
    have hbit : (v &&& (v - 1)).testBit j = true := by
      rw [Nat.testBit_and, hbv, hbv1]
      rfl
    rw [hland] at hbit
    simp at hbit
  · rintro ⟨k, rfl⟩
    refine ⟨pow_ne_zero k (by norm_num), ?_⟩
    apply Nat.eq_of_testBit_eq
    intro i
    rw [Nat.testBit_and, Nat.zero_testBit, Nat.testBit_two_pow_sub_one]
    rcases eq_or_ne k i with rfl | h
    · simp
    · simp [Nat.testBit_two_pow_of_ne h]

/-- C9: the constructor's precondition checks pass exactly on the
spec's valid sizes — they fail for every invalid `N` (not a power of
two, zero, or above the compile-time maximum) and never fire for a
valid one. -/
theorem configuration_validates_size (MAXFFT v : ℕ) :
    constructorAssertsPass MAXFFT v ↔ SpecValidSize MAXFFT v := by
  unfold constructorAssertsPass SpecValidSize
  rw [is_powerof2_iff]

/-- C1 (amended): on every processed block under a valid configuration,
the overlap frames advance their cursors in lockstep — after the block
every frame holds the same cursor, and that cursor stays in `[0, N)`.
(The frames' bin contents are not identical in general: a completing
frame's output is copied over the shared input buffer before the
remaining frames read the final sample.) -/
theorem frames_advance_in_lockstep (MAXFFT NC : ℕ)
    (fft : ℕ → (ℕ → ℝ × ℝ) → ℕ → ℝ × ℝ) (perm : ℕ → ℕ → ℕ)
    (s : SenderState) (vals : ℕ → ℕ → ℝ) (p : ℕ)
    (hvalid : SpecValidSize MAXFFT s.bufferSize)
    (hK : 1 ≤ s.overlap)
    (hlen : s.frames.length = s.overlap)
    (hpos : ∀ f ∈ s.frames, f.pos = p)
    (hp : p < s.bufferSize) :
    ∃ q, q < s.bufferSize ∧
      ∀ f ∈ (prepareDataForUI NC fft perm s vals).1.frames, f.pos = q := by
  obtain ⟨-, hn, -⟩ := hvalid
  unfold prepareDataForUI
  have hidx : ∀ j, j < (s, vals).1.frames.length →
      (((s, vals).1.frames.getD j zeroFrame)).pos = p := by
    intro j hj
    have hget : s.frames.getD j zeroFrame = s.frames[j] := by
      rw [List.getD_eq_getElem?_getD, List.getElem?_eq_getElem hj]
      rfl
    rw [hget]
    exact hpos _ (List.getElem_mem hj)
  obtain ⟨q, hq, hq2⟩ := sampleLoop_lockstep NC fft perm s.bufferSize hn
    s.bufferSize 0 (s, vals) p hlen hp hidx
  refine ⟨q, hq, ?_⟩
  intro f hf
  rw [List.mem_iff_getElem] at hf
  obtain ⟨j, hj, rfl⟩ := hf
  have hpq := hq2 j hj
  rw [List.getD_eq_getElem?_getD, List.getElem?_eq_getElem hj] at hpq
  simpa using hpq

/-- Witness for `frames_advance_in_lockstep` on a freshly configured
sender (size 2, overlap 2) fed an all-zero block, with the transform and
permutation instantiated trivially. -/
theorem frames_advance_in_lockstep_witness :
    SpecValidSize 2 (mkSpectrumSender 2 2 2 .Hann .Complex).bufferSize ∧
    1 ≤ (mkSpectrumSender 2 2 2 .Hann .Complex).overlap ∧
    (mkSpectrumSender 2 2 2 .Hann .Complex).frames.length =
      (mkSpectrumSender 2 2 2 .Hann .Complex).overlap ∧
    (∀ f ∈ (mkSpectrumSender 2 2 2 .Hann .Complex).frames, f.pos = 0) ∧
    0 < (mkSpectrumSender 2 2 2 .Hann .Complex).bufferSize ∧
    ∃ q, q < (mkSpectrumSender 2 2 2 .Hann .Complex).bufferSize ∧
      ∀ f ∈ (prepareDataForUI 1 (fun _ b => b) (fun _ i => i)
        (mkSpectrumSender 2 2 2 .Hann .Complex) (fun _ _ => 0)).1.frames,
        f.pos = q := by
  have h1 : SpecValidSize 2 (mkSpectrumSender 2 2 2 .Hann .Complex).bufferSize :=
    ⟨⟨1, rfl⟩, Nat.succ_pos 1, Nat.le_refl 2⟩
  have h2 : 1 ≤ (mkSpectrumSender 2 2 2 .Hann .Complex).overlap := Nat.le_succ 1
  have h3 : (mkSpectrumSender 2 2 2 .Hann .Complex).frames.length =
      (mkSpectrumSender 2 2 2 .Hann .Complex).overlap := rfl
  have h4 : ∀ f ∈ (mkSpectrumSender 2 2 2 .Hann .Complex).frames, f.pos = 0 := by
    intro f hf
    rw [List.eq_of_mem_replicate (show f ∈ List.replicate 2 zeroFrame from hf)]
    rfl
  have h5 : 0 < (mkSpectrumSender 2 2 2 .Hann .Complex).bufferSize := Nat.succ_pos 1
  exact ⟨h1, h2, h3, h4, h5,
    frames_advance_in_lockstep 2 1 (fun _ b => b) (fun _ i => i)
      (mkSpectrumSender 2 2 2 .Hann .Complex) (fun _ _ => 0) 0 h1 h2 h3 h4 h5⟩

/-- Counterexample to C1 as stated: with a valid configuration (size 2,
overlap 2, Rectangular window, Complex output, the transform modelled
from the spec as the forward DFT with bit-reversal permutation) and the
all-ones input block, the two overlap frames end the block with
different bin contents — the first completed frame's output is copied
over the input buffer before the second frame reads the final sample, so
the frames do not receive the same sample values. -/
theorem frames_not_identical_counterexample :
    ((prepareDataForUI 1 specDFT specPermute
        (mkSpectrumSender 2 2 2 .Rectangular .Complex)
        (fun _ _ => 1)).1.frames.getD 0 zeroFrame).bins 0 0 ≠
    ((prepareDataForUI 1 specDFT specPermute
        (mkSpectrumSender 2 2 2 .Rectangular .Complex)
        (fun _ _ => 1)).1.frames.getD 1 zeroFrame).bins 0 0 := by
  unfold prepareDataForUI mkSpectrumSender setFFTSizeAndOverlap setFFTSize
  norm_num [sampleLoop, frameLoop, processFrame, completeChannels,
    completeChannelsAux, PermuteFrame, calculateWindow, specDFT, specPermute,
    log2floor, log2floorAux, bitRevAux, zeroFrame, List.replicate,
    Finset.sum_range_succ, Finset.sum_range_zero, Real.cos_zero, Real.sin_zero,
    Prod.ext_iff]

end SpectrumSender
